import Mathlib

/-!
Verification of the checkedthreads task-dispatch runtime against its
specification.  The public header (`include/checkedthreads.h`) declares the
facade (`ct_init`, `ct_for`, `ct_invoke`, the canceller API) and contains the
C++11 `ctx_invoke` adapter templates; the backend implementations (serial,
shuffle, checked/valgrind, parallel schedulers) are not part of the visible
sources, so they are modelled here from the specification's words, as noted
on each such definition.
-/

namespace Checkedthreads

/-- The four backend kinds of the spec.  The header's `$CT_SCHED` values
`serial`, `shuffle`, `valgrind`, `openmp`, `tbb`, `pthreads` resolve onto
these: `valgrind` is the checked-instrumented backend and the three threading
platforms are all of the parallel kind. -/
inductive BackendKind where
  | serial
  | shuffle
  | checked
  | parallel
  deriving DecidableEq

/-- Modelled from the spec: the resolved `Config` record (backend choice,
thread count, verbosity, random seed, seed-reversal flag), produced once at
init from the environment variables documented in the header and read-only
afterwards. -/
structure Config where
  backend_kind : BackendKind
  thread_count : Nat
  verbosity : Nat
  rand_seed : Nat
  rand_reverse : Bool

/-- Modelled from the spec: mapping of a `$CT_SCHED` value (header line 22)
to the backend kind it selects. -/
def resolveSched : String → Option BackendKind
  | "serial" => some .serial
  | "shuffle" => some .shuffle
  | "valgrind" => some .checked
  | "openmp" => some .parallel
  | "tbb" => some .parallel
  | "pthreads" => some .parallel
  | _ => none

/-- Modelled from the spec: the process-wide scheduler instance constructed
by `ct_init` from the resolved config; its kind is fixed after init. -/
structure Scheduler where
  kind : BackendKind
  cfg : Config

/-- Modelled from the spec: `ct_init` resolves the config and constructs the
one backend of the configured kind. -/
def ct_init (cfg : Config) : Scheduler :=
  ⟨cfg.backend_kind, cfg⟩

/-- Modelled from the spec: a canceller is a single boolean flag;
`ct_cancel` sets it (header line 48). -/
def ct_cancel (_c : Bool) : Bool := true

/-- Modelled from the spec: `ct_cancelled` queries the flag
(header line 49). -/
def ct_cancelled (c : Bool) : Bool := c

/-- Modelled from the spec: one step of the linear congruential generator
behind the shuffle/valgrind schedulers' deterministic randomization
(`$CT_RAND_SEED`, header line 25). -/
def lcgNext (s : Nat) : Nat := (s * 1103515245 + 12345) % 2 ^ 31

/-- Modelled from the spec: Fisher-Yates-style selection shuffle.  At each
step the generator state advances, an element of the remaining pool is
selected by the new random value, emitted, and removed; the fuel equals the
pool size at the top call. -/
def shuffleAux : Nat → Nat → List Nat → List Nat
  | 0, _, _ => []
  | _ + 1, _, [] => []
  | fuel + 1, s, x :: xs =>
    let l := x :: xs
    let s' := lcgNext s
    let j := s' % l.length
    let y := l.getD j 0
    y :: shuffleAux fuel s' (l.erase y)

/-- Modelled from the spec: the execution order of indices `0..n-1` used by
the shuffle and checked backends: a permutation of `[0,n)` derived
deterministically from the seed, reversed as a sequence when `$CT_RAND_REV`
is set (header line 26: reverse each random index sequence yielded by the
given seed). -/
def shuffleOrder (seed n : Nat) (rev : Bool) : List Nat :=
  let base := shuffleAux n seed (List.range n)
  if rev then base.reverse else base

/-- Modelled from the spec: the order in which a backend dispatches the
indices of `ct_for(n, ...)`, absent cancellation.  Serial runs ascending;
shuffle and checked run the seeded permutation; the parallel backend's
workers claim indices from a shared counter, so its claim order is
ascending as well (completion order is unordered and not modelled). -/
def dispatchOrder (cfg : Config) (n : Nat) : List Nat :=
  match cfg.backend_kind with
  | .serial => List.range n
  | .shuffle => shuffleOrder cfg.rand_seed n cfg.rand_reverse
  | .checked => shuffleOrder cfg.rand_seed n cfg.rand_reverse
  | .parallel => List.range n

theorem shuffleAux_perm :
    ∀ (fuel s : Nat) (l : List Nat), l.length ≤ fuel →
      (shuffleAux fuel s l).Perm l := by
  intro fuel
  induction fuel with
  | zero =>
    intro s l hl
    have : l = [] := List.eq_nil_of_length_eq_zero (Nat.le_zero.mp hl)
    simp [this, shuffleAux]
  | succ fuel ih =>
    intro s l hl
    match l with
    | [] => simp [shuffleAux]
    | x :: xs =>
      simp only [shuffleAux]
      set l := x :: xs with hlxs
      have hpos : 0 < l.length := by simp [hlxs]
      have hj : lcgNext s % l.length < l.length := Nat.mod_lt _ hpos
      have hy : l.getD (lcgNext s % l.length) 0 ∈ l := by
        rw [List.getD_eq_getElem l 0 hj]
        exact List.getElem_mem hj
      have herase : (l.erase (l.getD (lcgNext s % l.length) 0)).length ≤ fuel := by
        rw [List.length_erase_of_mem hy]
        have : l.length - 1 = xs.length := by simp [hlxs]
        rw [this]
        have := hl
        simp only [hlxs, List.length_cons] at this
        omega
      have hperm := ih (lcgNext s) (l.erase (l.getD (lcgNext s % l.length) 0)) herase
      exact (hperm.cons _).trans (List.perm_cons_erase hy).symm

theorem shuffleOrder_perm (seed n : Nat) (rev : Bool) :
    (shuffleOrder seed n rev).Perm (List.range n) := by
  have hbase : (shuffleAux n seed (List.range n)).Perm (List.range n) :=
    shuffleAux_perm n seed (List.range n) (by simp)
  unfold shuffleOrder
  cases rev with
  | false => simpa using hbase
  | true => simpa using (List.reverse_perm _).trans hbase

theorem shuffleOrder_length (seed n : Nat) (rev : Bool) :
    (shuffleOrder seed n rev).length = n := by
  simpa using (shuffleOrder_perm seed n rev).length_eq

theorem dispatchOrder_perm (cfg : Config) (n : Nat) :
    (dispatchOrder cfg n).Perm (List.range n) := by
  unfold dispatchOrder
  cases cfg.backend_kind with
  | serial => exact List.Perm.refl _
  | shuffle => exact shuffleOrder_perm _ _ _
  | checked => exact shuffleOrder_perm _ _ _
  | parallel => exact List.Perm.refl _

/-- State threaded through one `ct_for`/`ct_invoke` call: the canceller
flag, the caller's context state, and the indices dispatched so far. -/
structure RunState (σ : Type) where
  flag : Bool
  user : σ
  dispatched : List Nat

/-- Modelled from the spec: the dispatch loop shared in spirit by every
backend.  Before each unit the canceller is polled (its flag, or an external
cancel signal `ext` arriving before step `t`); if cancellation is observed no
new unit begins, otherwise the unit `eff i` runs to completion on the user
state and may itself request cancellation (its second component, the unit
calling `ct_cancel`). -/
def runLoop (eff : Nat → σ → σ × Bool) (ext : Nat → Bool) :
    List Nat → Nat → RunState σ → RunState σ
  | [], _, st => st
  | i :: rest, t, st =>
    if st.flag || ext t then
      { st with flag := true }
    else
      let r := eff i st.user
      runLoop eff ext rest (t + 1)
        { flag := r.2, user := r.1, dispatched := st.dispatched ++ [i] }

/-- The state at the start of a dispatch call: flag clear, nothing
dispatched. -/
def initState (s : σ) : RunState σ :=
  ⟨false, s, []⟩

/-- Modelled from the spec: `run_indexed` / `ct_for(n, f, context, c)` -
the active backend dispatches the indices of `[0, n)` in its order, through
the cancellation-checking loop. -/
def runIndexed (cfg : Config) (n : Nat) (eff : Nat → σ → σ × Bool)
    (ext : Nat → Bool) (s : σ) : RunState σ :=
  runLoop eff ext (dispatchOrder cfg n) 0 (initState s)

/-- Modelled from the spec: `run_tasks` / `ct_invoke(tasks, c)` - the task
list is conceptually indexed `0..k-1` and the same dispatch mechanism runs
each task once, in the backend's order. -/
def runTasks (cfg : Config) (tasks : List (σ → σ × Bool))
    (ext : Nat → Bool) (s : σ) : RunState σ :=
  runLoop (fun i u => (tasks.getD i (fun v => (v, false))) u) ext
    (dispatchOrder cfg tasks.length) 0 (initState s)

/-- The facade entry point `ct_for` returns `void` (header line 62); the
model pairs that `Unit` return value with the final state. -/
def ct_for (cfg : Config) (n : Nat) (eff : Nat → σ → σ × Bool)
    (ext : Nat → Bool) (s : σ) : Unit × RunState σ :=
  ((), runIndexed cfg n eff ext s)

/-- The facade entry point `ct_invoke` returns `void` (header line 58). -/
def ct_invoke (cfg : Config) (tasks : List (σ → σ × Bool))
    (ext : Nat → Bool) (s : σ) : Unit × RunState σ :=
  ((), runTasks cfg tasks ext s)

/-- The effect of running the dispatched units in order, each to
completion, on the user state. -/
def applyEffects (eff : Nat → σ → σ × Bool) (l : List Nat) (s : σ) : σ :=
  l.foldl (fun u i => (eff i u).1) s

/-- Instrumentation events of the checked backend: enter/leave bracket the
invocation (`callf`) of one unit's callable. -/
inductive Event where
  | enter (i : Nat)
  | callf (i : Nat)
  | leave (i : Nat)
  deriving DecidableEq

def isEnter : Event → Bool
  | .enter _ => true
  | _ => false

def isLeave : Event → Bool
  | .leave _ => true
  | _ => false

/-- State of a checked-backend call: a `RunState` plus the instrumentation
trace. -/
structure CheckedState (σ : Type) where
  flag : Bool
  user : σ
  dispatched : List Nat
  trace : List Event

/-- Modelled from the spec: the checked backend's dispatch loop.  Same
cancellation-checking order as shuffle, but each dispatched unit's callable
invocation is bracketed by exactly one enter/leave instrumentation pair;
units never dispatched emit nothing. -/
def checkedLoop (eff : Nat → σ → σ × Bool) (ext : Nat → Bool) :
    List Nat → Nat → CheckedState σ → CheckedState σ
  | [], _, st => st
  | i :: rest, t, st =>
    if st.flag || ext t then
      { st with flag := true }
    else
      let r := eff i st.user
      checkedLoop eff ext rest (t + 1)
        { flag := r.2, user := r.1,
          dispatched := st.dispatched ++ [i],
          trace := st.trace ++ [Event.enter i, Event.callf i, Event.leave i] }

/-- Modelled from the spec: a `run_indexed` call on the checked backend,
starting from a clear flag and empty trace. -/
def checkedRun (cfg : Config) (n : Nat) (eff : Nat → σ → σ × Bool)
    (ext : Nat → Bool) (s : σ) : CheckedState σ :=
  checkedLoop eff ext (dispatchOrder cfg n) 0 ⟨false, s, [], []⟩

/-- The instrumentation trace a list of dispatched indices should produce:
one enter/callf/leave bracket per index, in dispatch order. -/
def traceOf (l : List Nat) : List Event :=
  l.foldr (fun i acc => Event.enter i :: Event.callf i :: Event.leave i :: acc) []

/-- The C++11 adapter `ctx_task_func_impl` (header lines 95-100): wraps a
callable; its `run_task()` applies it. -/
structure ctx_task_func_impl (σ : Type) where
  f : σ → σ

/-- `run_task()` of an adapter applies the wrapped callable
(header line 99). -/
def run_task (a : ctx_task_func_impl σ) : σ → σ := a.f

/-- The linked list `ctx_task_node_` (header lines 101-104): each node holds
an adapter and a next pointer; `null` models `next == 0`. -/
inductive ctx_task_node_ (σ : Type) where
  | null
  | node (func : ctx_task_func_impl σ) (next : ctx_task_node_ σ)

/-- The variadic `ctx_invoke_` (header lines 106-111): each step wraps the
first remaining callable in an adapter, prepends it as the new head, and
recurses; the base overload (line 105) receives the finished list. -/
def ctx_invoke_ : ctx_task_node_ σ → List (σ → σ) → ctx_task_node_ σ
  | head, [] => head
  | head, first :: rest => ctx_invoke_ (.node ⟨first⟩ head) rest

/-- `ctx_invoke` (header lines 113-118): builds the head node for the first
callable with `next == 0` and hands the remaining callables to
`ctx_invoke_`. -/
def ctx_invoke (first : σ → σ) (rest : List (σ → σ)) : ctx_task_node_ σ :=
  ctx_invoke_ (.node ⟨first⟩ .null) rest

/-- The adapters of a node list, head first. -/
def nodeFuncs : ctx_task_node_ σ → List (ctx_task_func_impl σ)
  | .null => []
  | .node f nx => f :: nodeFuncs nx

theorem runLoop_noCancel (eff : Nat → σ → σ × Bool) (ext : Nat → Bool)
    (hEff : ∀ i u, (eff i u).2 = false) (hExt : ∀ t, ext t = false) :
    ∀ (order : List Nat) (t : Nat) (st : RunState σ), st.flag = false →
      (runLoop eff ext order t st).dispatched = st.dispatched ++ order := by
  intro order
  induction order with
  | nil => intro t st _; simp [runLoop]
  | cons i rest ih =>
    intro t st h
    simp only [runLoop, h, hExt t, Bool.or_self, Bool.false_eq_true, if_false]
    rw [ih (t + 1) _ (hEff i st.user)]
    simp

theorem runLoop_spec (eff : Nat → σ → σ × Bool) (ext : Nat → Bool) :
    ∀ (order : List Nat) (t : Nat) (st : RunState σ),
      ∃ k, k ≤ order.length ∧
        (runLoop eff ext order t st).dispatched = st.dispatched ++ order.take k ∧
        (runLoop eff ext order t st).user = applyEffects eff (order.take k) st.user ∧
        (k < order.length → (runLoop eff ext order t st).flag = true) := by
  intro order
  induction order with
  | nil =>
    intro t st
    exact ⟨0, Nat.le_refl 0, by simp [runLoop], by simp [runLoop, applyEffects], by simp⟩
  | cons i rest ih =>
    intro t st
    by_cases hc : (st.flag || ext t) = true
    · refine ⟨0, Nat.zero_le _, ?_, ?_, ?_⟩
      · simp [runLoop, hc]
      · simp [runLoop, hc, applyEffects]
      · intro _; simp [runLoop, hc]
    · obtain ⟨k, hk, hd, hu, hf⟩ :=
        ih (t + 1)
          { flag := (eff i st.user).2, user := (eff i st.user).1,
            dispatched := st.dispatched ++ [i] }
      refine ⟨k + 1, by simpa using Nat.succ_le_succ hk, ?_, ?_, ?_⟩
      · simp only [runLoop]
        rw [if_neg hc, hd]
        simp [List.take_succ_cons]
      · simp only [runLoop]
        rw [if_neg hc, hu]
        simp [List.take_succ_cons, applyEffects]
      · intro hlt
        simp only [runLoop]
        rw [if_neg hc]
        exact hf (by simpa using Nat.lt_of_succ_lt_succ (by simpa using hlt))

theorem runLoop_flag_mono (eff : Nat → σ → σ × Bool) (ext : Nat → Bool) :
    ∀ (order : List Nat) (t : Nat) (st : RunState σ), st.flag = true →
      (runLoop eff ext order t st).flag = true := by
  intro order
  cases order with
  | nil => intro t st h; simpa [runLoop] using h
  | cons i rest => intro t st h; simp [runLoop, h]

theorem traceOf_cons (i : Nat) (l : List Nat) :
    traceOf (i :: l) = Event.enter i :: Event.callf i :: Event.leave i :: traceOf l :=
  rfl

theorem traceOf_countP_enter (l : List Nat) :
    (traceOf l).countP isEnter = l.length := by
  induction l with
  | nil => simp [traceOf]
  | cons i rest ih =>
    rw [traceOf_cons]
    simp [List.countP_cons, isEnter, ih]

theorem traceOf_countP_leave (l : List Nat) :
    (traceOf l).countP isLeave = l.length := by
  induction l with
  | nil => simp [traceOf]
  | cons i rest ih =>
    rw [traceOf_cons]
    simp [List.countP_cons, isLeave, ih]

theorem traceOf_enter_mem (l : List Nat) (i : Nat)
    (h : Event.enter i ∈ traceOf l) : i ∈ l := by
  induction l with
  | nil => simp [traceOf] at h
  | cons j rest ih =>
    rw [traceOf_cons] at h
    simp only [List.mem_cons] at h
    rcases h with h | h | h | h
    · cases h; exact List.mem_cons_self _ _
    · cases h
    · cases h
    · exact List.mem_cons_of_mem _ (ih h)

theorem checkedLoop_spec (eff : Nat → σ → σ × Bool) (ext : Nat → Bool) :
    ∀ (order : List Nat) (t : Nat) (st : CheckedState σ),
      ∃ k, k ≤ order.length ∧
        (checkedLoop eff ext order t st).dispatched = st.dispatched ++ order.take k ∧
        (checkedLoop eff ext order t st).trace = st.trace ++ traceOf (order.take k) := by
  intro order
  induction order with
  | nil =>
    intro t st
    exact ⟨0, Nat.le_refl 0, by simp [checkedLoop], by simp [checkedLoop, traceOf]⟩
  | cons i rest ih =>
    intro t st
    by_cases hc : (st.flag || ext t) = true
    · refine ⟨0, Nat.zero_le _, ?_, ?_⟩
      · simp [checkedLoop, hc]
      · simp [checkedLoop, hc, traceOf]
    · obtain ⟨k, hk, hd, htr⟩ :=
        ih (t + 1)
          { flag := (eff i st.user).2, user := (eff i st.user).1,
            dispatched := st.dispatched ++ [i],
            trace := st.trace ++ [Event.enter i, Event.callf i, Event.leave i] }
      refine ⟨k + 1, by simpa using Nat.succ_le_succ hk, ?_, ?_⟩
      · simp only [checkedLoop]
        rw [if_neg hc, hd]
        simp [List.take_succ_cons]
      · simp only [checkedLoop]
        rw [if_neg hc, htr]
        simp [List.take_succ_cons, traceOf_cons]

theorem checkedLoop_noCancel (eff : Nat → σ → σ × Bool) (ext : Nat → Bool)
    (hEff : ∀ i u, (eff i u).2 = false) (hExt : ∀ t, ext t = false) :
    ∀ (order : List Nat) (t : Nat) (st : CheckedState σ), st.flag = false →
      (checkedLoop eff ext order t st).dispatched = st.dispatched ++ order := by
  intro order
  induction order with
  | nil => intro t st _; simp [checkedLoop]
  | cons i rest ih =>
    intro t st h
    simp only [checkedLoop, h, hExt t, Bool.or_self, Bool.false_eq_true, if_false]
    rw [ih (t + 1) _ (hEff i st.user)]
    simp

theorem nodeFuncs_ctx_invoke_aux (l : List (σ → σ)) :
    ∀ head : ctx_task_node_ σ,
      nodeFuncs (ctx_invoke_ head l) =
        (l.map ctx_task_func_impl.mk).reverse ++ nodeFuncs head := by
  induction l with
  | nil => intro head; simp [ctx_invoke_]
  | cons first rest ih =>
    intro head
    simp only [ctx_invoke_, ih]
    simp [nodeFuncs]

/-- A concrete serial-backend config used by witnesses. -/
def cfgSerial : Config :=
  ⟨.serial, 1, 0, 0, false⟩

/-- A concrete shuffle-backend config. -/
def cfgShuffleA : Config :=
  ⟨.shuffle, 4, 0, 7, false⟩

/-- A shuffle-backend config equal to `cfgShuffleA` in seed and reversal
flag but different in thread count and verbosity. -/
def cfgShuffleB : Config :=
  ⟨.shuffle, 8, 2, 7, false⟩

/-- A concrete checked-backend config. -/
def cfgChecked : Config :=
  ⟨.checked, 1, 0, 3, false⟩

/-- A unit effect that counts invocations and never cancels. -/
def effCount : Nat → Nat → Nat × Bool :=
  fun _ u => (u + 1, false)

/-- A unit effect that counts invocations and signals the canceller from
within the unit at index 0. -/
def effCancelAt0 : Nat → Nat → Nat × Bool :=
  fun i u => (u + 1, i == 0)

/-- No external cancellation signal. -/
def extNone : Nat → Bool :=
  fun _ => false

/-- C1: for every `n ≥ 0`, every backend configuration, and every callable,
a `run_indexed` (`ct_for`) call with no cancellation signalled dispatches
the callable for exactly the index set `{0, ..., n-1}`: the dispatched list
is a permutation of `List.range n`, and each index below `n` appears in it
exactly once - no duplicates and no omissions. -/
theorem C1_runIndexed_exact_indices (cfg : Config) (n : Nat)
    (eff : Nat → σ → σ × Bool) (ext : Nat → Bool) (s : σ)
    (hEff : ∀ i u, (eff i u).2 = false) (hExt : ∀ t, ext t = false) :
    (runIndexed cfg n eff ext s).dispatched.Perm (List.range n) ∧
    ∀ i, i < n → (runIndexed cfg n eff ext s).dispatched.count i = 1 := by
  have hd : (runIndexed cfg n eff ext s).dispatched = dispatchOrder cfg n := by
    have h := runLoop_noCancel eff ext hEff hExt (dispatchOrder cfg n) 0 (initState s) rfl
    simpa [runIndexed, initState] using h
  have hperm : (runIndexed cfg n eff ext s).dispatched.Perm (List.range n) := by
    rw [hd]; exact dispatchOrder_perm cfg n
  refine ⟨hperm, fun i hi => ?_⟩
  rw [hperm.count_eq]
  exact List.count_eq_one_of_mem (List.nodup_range n) (List.mem_range.mpr hi)

theorem C1_witness :
    (runIndexed cfgSerial 3 effCount extNone 0).dispatched.Perm (List.range 3) ∧
    ∀ i, i < 3 → (runIndexed cfgSerial 3 effCount extNone 0).dispatched.count i = 1 :=
  C1_runIndexed_exact_indices cfgSerial 3 effCount extNone 0
    (fun _ _ => rfl) (fun _ => rfl)

/-- C2: for every `n ≥ 0`, the Serial backend's `run_indexed` with no
cancellation configured invokes the callable exactly once for each index
`0, 1, ..., n-1` in strictly ascending order (the dispatched list is
literally `List.range n`); the model's loop polls the canceller before each
unit and runs on the calling thread. -/
theorem C2_serial_ascending_order (cfg : Config) (n : Nat)
    (eff : Nat → σ → σ × Bool) (ext : Nat → Bool) (s : σ)
    (hk : cfg.backend_kind = .serial)
    (hEff : ∀ i u, (eff i u).2 = false) (hExt : ∀ t, ext t = false) :
    (runIndexed cfg n eff ext s).dispatched = List.range n := by
  have hd : (runIndexed cfg n eff ext s).dispatched = dispatchOrder cfg n := by
    have h := runLoop_noCancel eff ext hEff hExt (dispatchOrder cfg n) 0 (initState s) rfl
    simpa [runIndexed, initState] using h
  rw [hd]
  unfold dispatchOrder
  rw [hk]

theorem C2_witness :
    (runIndexed cfgSerial 4 effCount extNone 0).dispatched = List.range 4 :=
  C2_serial_ascending_order cfgSerial 4 effCount extNone 0 rfl
    (fun _ _ => rfl) (fun _ => rfl)

/-- C3: for every backend configuration, both for `run_indexed` and for
`run_tasks`: the dispatched units form a take-first segment of the
backend's dispatch order (so once a signalled canceller is observed no
not-yet-started unit begins); the user state at return is exactly the fold
of the dispatched units' complete effects (every dispatched unit ran to
completion before the call returned, none is left pending); and when the
call stops short of the full order, the canceller flag was indeed observed
set. -/
theorem C3_cancellation_early_stop (cfg : Config) (n : Nat)
    (eff : Nat → σ → σ × Bool) (tasks : List (σ → σ × Bool))
    (ext : Nat → Bool) (s : σ) :
    (∃ k, k ≤ (dispatchOrder cfg n).length ∧
      (runIndexed cfg n eff ext s).dispatched = (dispatchOrder cfg n).take k ∧
      (runIndexed cfg n eff ext s).user =
        applyEffects eff (runIndexed cfg n eff ext s).dispatched s ∧
      (k < (dispatchOrder cfg n).length →
        (runIndexed cfg n eff ext s).flag = true)) ∧
    (∃ k, k ≤ (dispatchOrder cfg tasks.length).length ∧
      (runTasks cfg tasks ext s).dispatched =
        (dispatchOrder cfg tasks.length).take k ∧
      (k < (dispatchOrder cfg tasks.length).length →
        (runTasks cfg tasks ext s).flag = true)) := by
  constructor
  · obtain ⟨k, hk, hd, hu, hf⟩ :=
      runLoop_spec eff ext (dispatchOrder cfg n) 0 (initState s)
    refine ⟨k, hk, ?_, ?_, ?_⟩
    · simpa [runIndexed, initState] using hd
    · have hd' : (runIndexed cfg n eff ext s).dispatched =
          (dispatchOrder cfg n).take k := by
        simpa [runIndexed, initState] using hd
      rw [hd']
      simpa [runIndexed, initState] using hu
    · intro hlt
      simpa [runIndexed, initState] using hf hlt
  · obtain ⟨k, hk, hd, _, hf⟩ :=
      runLoop_spec (fun i u => (tasks.getD i (fun v => (v, false))) u) ext
        (dispatchOrder cfg tasks.length) 0 (initState s)
    refine ⟨k, hk, ?_, ?_⟩
    · simpa [runTasks, initState] using hd
    · intro hlt
      simpa [runTasks, initState] using hf hlt

theorem C3_witness :
    (∃ k, k ≤ (dispatchOrder cfgSerial 3).length ∧
      (runIndexed cfgSerial 3 effCancelAt0 extNone 0).dispatched =
        (dispatchOrder cfgSerial 3).take k ∧
      (runIndexed cfgSerial 3 effCancelAt0 extNone 0).user =
        applyEffects effCancelAt0
          (runIndexed cfgSerial 3 effCancelAt0 extNone 0).dispatched 0 ∧
      (k < (dispatchOrder cfgSerial 3).length →
        (runIndexed cfgSerial 3 effCancelAt0 extNone 0).flag = true)) ∧
    (∃ k, k ≤ (dispatchOrder cfgSerial 0).length ∧
      (runTasks cfgSerial ([] : List (Nat → Nat × Bool)) extNone 0).dispatched =
        (dispatchOrder cfgSerial 0).take k ∧
      (k < (dispatchOrder cfgSerial 0).length →
        (runTasks cfgSerial ([] : List (Nat → Nat × Bool)) extNone 0).flag = true)) :=
  C3_cancellation_early_stop cfgSerial 3 effCancelAt0 [] extNone 0

/-- C4: the Shuffle backend's execution order is a function of
`(seed, n, reverse)` only: any two configurations with the shuffle backend,
the same seed and the same reversal flag - even if they differ in thread
count or verbosity, as two repeated runs or two fresh processes would -
yield the identical dispatch order and the identical dispatched sequence in
`run_indexed`. -/
theorem C4_shuffle_deterministic (c₁ c₂ : Config) (n : Nat)
    (eff : Nat → σ → σ × Bool) (ext : Nat → Bool) (s : σ)
    (h₁ : c₁.backend_kind = .shuffle) (h₂ : c₂.backend_kind = .shuffle)
    (hs : c₁.rand_seed = c₂.rand_seed) (hr : c₁.rand_reverse = c₂.rand_reverse) :
    dispatchOrder c₁ n = dispatchOrder c₂ n ∧
    (runIndexed c₁ n eff ext s).dispatched = (runIndexed c₂ n eff ext s).dispatched := by
  have ho : dispatchOrder c₁ n = dispatchOrder c₂ n := by
    unfold dispatchOrder
    rw [h₁, h₂, hs, hr]
  refine ⟨ho, ?_⟩
  unfold runIndexed
  rw [ho]

theorem C4_witness :
    dispatchOrder cfgShuffleA 5 = dispatchOrder cfgShuffleB 5 ∧
    (runIndexed cfgShuffleA 5 effCount extNone 0).dispatched =
      (runIndexed cfgShuffleB 5 effCount extNone 0).dispatched :=
  C4_shuffle_deterministic cfgShuffleA cfgShuffleB 5 effCount extNone 0
    rfl rfl rfl rfl

/-- C5: for every seed and every `n`, the shuffle order under
`reverse = true` is the exact reversal of the order under `reverse = false`;
equivalently, position `i` of the reversed sequence holds what position
`n-1-i` holds in the non-reversed sequence. -/
theorem C5_reverse_is_mirror (s n : Nat) :
    shuffleOrder s n true = (shuffleOrder s n false).reverse ∧
    ∀ i, i < n →
      (shuffleOrder s n true).getD i 0 =
        (shuffleOrder s n false).getD (n - 1 - i) 0 := by
  have hrev : shuffleOrder s n true = (shuffleOrder s n false).reverse := by
    simp [shuffleOrder]
  refine ⟨hrev, fun i hi => ?_⟩
  have hlen : (shuffleOrder s n false).length = n := shuffleOrder_length s n false
  have h1 : i < (shuffleOrder s n false).reverse.length := by
    rw [List.length_reverse, hlen]; exact hi
  have h2 : n - 1 - i < (shuffleOrder s n false).length := by
    rw [hlen]; omega
  rw [hrev, List.getD_eq_getElem _ 0 h1, List.getD_eq_getElem _ 0 h2,
    List.getElem_reverse]
  congr 1
  rw [hlen]

theorem C5_witness :
    shuffleOrder 7 4 true = (shuffleOrder 7 4 false).reverse ∧
    ∀ i, i < 4 →
      (shuffleOrder 7 4 true).getD i 0 =
        (shuffleOrder 7 4 false).getD (4 - 1 - i) 0 :=
  C5_reverse_is_mirror 7 4

/-- C6: the canceller flag is monotone: `ct_cancel` sets the flag and is
idempotent (a pure total function, so it never blocks and never fails),
every `ct_cancelled` query after a cancel returns true, and the dispatch
loop never resets a set flag - a run entered with the flag set leaves it
set. -/
theorem C6_canceller_monotone :
    (∀ c : Bool, ct_cancel c = true) ∧
    (∀ c : Bool, ct_cancel (ct_cancel c) = ct_cancel c) ∧
    (∀ c : Bool, ct_cancelled (ct_cancel c) = true) ∧
    (∀ (σ : Type) (eff : Nat → σ → σ × Bool) (ext : Nat → Bool)
       (order : List Nat) (t : Nat) (st : RunState σ),
       st.flag = true → (runLoop eff ext order t st).flag = true) := by
  refine ⟨fun _ => rfl, fun _ => rfl, fun _ => rfl, ?_⟩
  intro σ eff ext order t st h
  exact runLoop_flag_mono eff ext order t st h

theorem C6_witness :
    ct_cancelled (ct_cancel false) = true ∧
    (runLoop effCount extNone [0, 1] 0 ⟨true, 0, []⟩).flag = true :=
  ⟨C6_canceller_monotone.2.2.1 false,
   C6_canceller_monotone.2.2.2 Nat effCount extNone [0, 1] 0 ⟨true, 0, []⟩ rfl⟩

/-- C7: on the checked backend, the instrumentation trace of a
`run_indexed` call is exactly one enter/leave pair per dispatched unit,
each pair nested around exactly that unit's callable invocation (the trace
is literally the concatenation of `[enter i, callf i, leave i]` brackets
over the dispatched list in order); a unit never dispatched because of
early stop receives no instrumentation; and for `n = 5` with no
cancellation exactly 5 enter and 5 leave events are observed. -/
theorem C7_checked_instrumentation (cfg : Config) (n : Nat)
    (eff : Nat → σ → σ × Bool) (ext : Nat → Bool) (s : σ) :
    ((checkedRun cfg n eff ext s).trace =
      traceOf (checkedRun cfg n eff ext s).dispatched) ∧
    ((checkedRun cfg n eff ext s).trace.countP isEnter =
      (checkedRun cfg n eff ext s).dispatched.length ∧
     (checkedRun cfg n eff ext s).trace.countP isLeave =
      (checkedRun cfg n eff ext s).dispatched.length) ∧
    (∀ i, Event.enter i ∈ (checkedRun cfg n eff ext s).trace →
      i ∈ (checkedRun cfg n eff ext s).dispatched) ∧
    (∀ (eff2 : Nat → σ → σ × Bool) (ext2 : Nat → Bool),
      (∀ i u, (eff2 i u).2 = false) → (∀ t, ext2 t = false) →
      (checkedRun cfg 5 eff2 ext2 s).trace.countP isEnter = 5 ∧
      (checkedRun cfg 5 eff2 ext2 s).trace.countP isLeave = 5) := by
  have key : ∀ (n' : Nat) (eff' : Nat → σ → σ × Bool) (ext' : Nat → Bool),
      (checkedRun cfg n' eff' ext' s).trace =
        traceOf (checkedRun cfg n' eff' ext' s).dispatched := by
    intro n' eff' ext'
    obtain ⟨k, _, hd, htr⟩ :=
      checkedLoop_spec eff' ext' (dispatchOrder cfg n') 0 ⟨false, s, [], []⟩
    have hd' : (checkedRun cfg n' eff' ext' s).dispatched =
        (dispatchOrder cfg n').take k := by
      simpa [checkedRun] using hd
    have htr' : (checkedRun cfg n' eff' ext' s).trace =
        traceOf ((dispatchOrder cfg n').take k) := by
      simpa [checkedRun] using htr
    rw [htr', hd']
  refine ⟨key n eff ext, ⟨?_, ?_⟩, ?_, ?_⟩
  · rw [key n eff ext, traceOf_countP_enter]
  · rw [key n eff ext, traceOf_countP_leave]
  · intro i hi
    rw [key n eff ext] at hi
    exact traceOf_enter_mem _ i hi
  · intro eff2 ext2 hEff2 hExt2
    have hd5 : (checkedRun cfg 5 eff2 ext2 s).dispatched = dispatchOrder cfg 5 := by
      have h := checkedLoop_noCancel eff2 ext2 hEff2 hExt2
        (dispatchOrder cfg 5) 0 ⟨false, s, [], []⟩ rfl
      simpa [checkedRun] using h
    have hlen : (checkedRun cfg 5 eff2 ext2 s).dispatched.length = 5 := by
      rw [hd5]
      simpa using (dispatchOrder_perm cfg 5).length_eq
    constructor
    · rw [key 5 eff2 ext2, traceOf_countP_enter, hlen]
    · rw [key 5 eff2 ext2, traceOf_countP_leave, hlen]

theorem C7_witness :
    (checkedRun cfgChecked 5 effCount extNone 0).trace.countP isEnter = 5 ∧
    (checkedRun cfgChecked 5 effCount extNone 0).trace.countP isLeave = 5 :=
  (C7_checked_instrumentation cfgChecked 5 effCount extNone 0).2.2.2
    effCount extNone (fun _ _ => rfl) (fun _ => rfl)

/-- C8: cancellation is not an error: `ct_for` and `ct_invoke` return
`Unit` (C `void`) whether the call ran to completion or was cancelled, so
there is no distinct return or error value; in the concrete pair below the
cancelled run and the completed run return the same value and genuinely
differ in behaviour (different dispatched sets), and only querying the
canceller with `ct_cancelled` after the call distinguishes them. -/
theorem C8_cancellation_not_error :
    (∀ (σ' : Type) (cfg : Config) (n : Nat) (eff : Nat → σ' → σ' × Bool)
       (ext : Nat → Bool) (s : σ') (tasks : List (σ' → σ' × Bool)),
       (ct_for cfg n eff ext s).1 = () ∧ (ct_invoke cfg tasks ext s).1 = ()) ∧
    (ct_for cfgSerial 2 effCancelAt0 extNone 0).1 =
      (ct_for cfgSerial 2 effCount extNone 0).1 ∧
    ct_cancelled (ct_for cfgSerial 2 effCancelAt0 extNone 0).2.flag = true ∧
    ct_cancelled (ct_for cfgSerial 2 effCount extNone 0).2.flag = false ∧
    (ct_for cfgSerial 2 effCancelAt0 extNone 0).2.dispatched ≠
      (ct_for cfgSerial 2 effCount extNone 0).2.dispatched := by
  refine ⟨fun _ _ _ _ _ _ _ => ⟨rfl, rfl⟩, rfl, ?_, ?_, ?_⟩
  · decide
  · decide
  · decide

/-- C9: the backend kind resolved at init is one of exactly four kinds:
`ct_init` constructs the one backend of the config's kind, that kind always
belongs to {serial, shuffle, checked, parallel}, every recognized
`$CT_SCHED` value resolves into that set, and the four kinds are pairwise
distinct. -/
theorem C9_four_backend_kinds :
    (∀ cfg : Config, (ct_init cfg).kind = cfg.backend_kind) ∧
    (∀ cfg : Config,
      (ct_init cfg).kind = .serial ∨ (ct_init cfg).kind = .shuffle ∨
      (ct_init cfg).kind = .checked ∨ (ct_init cfg).kind = .parallel) ∧
    (∀ (sched : String) (k : BackendKind), resolveSched sched = some k →
      k = .serial ∨ k = .shuffle ∨ k = .checked ∨ k = .parallel) ∧
    [BackendKind.serial, .shuffle, .checked, .parallel].Nodup := by
  refine ⟨fun _ => rfl, ?_, ?_, by decide⟩
  · intro cfg
    cases h : (ct_init cfg).kind
    · exact Or.inl rfl
    · exact Or.inr (Or.inl rfl)
    · exact Or.inr (Or.inr (Or.inl rfl))
    · exact Or.inr (Or.inr (Or.inr rfl))
  · intro sched k _
    cases k
    · exact Or.inl rfl
    · exact Or.inr (Or.inl rfl)
    · exact Or.inr (Or.inr (Or.inl rfl))
    · exact Or.inr (Or.inr (Or.inr rfl))

theorem C9_witness :
    (ct_init cfgSerial).kind = cfgSerial.backend_kind ∧
    (BackendKind.checked = .serial ∨ BackendKind.checked = .shuffle ∨
      BackendKind.checked = .checked ∨ BackendKind.checked = .parallel) :=
  ⟨C9_four_backend_kinds.1 cfgSerial,
   C9_four_backend_kinds.2.2.1 "valgrind" BackendKind.checked rfl⟩

/-- C10: `ctx_invoke(t1, ..., tk)` passes to the final `ctx_invoke_(head)`
call a `ctx_task_node_` list with exactly one node per callable, linked in
reverse argument order: the node list read from the head is the reversal of
the argument list of adapters, so the head node holds the adapter for `tk`
and the tail node (with `next == 0`, the last of the list) holds the
adapter for `t1`; and each adapter's `run_task()` applies its wrapped
callable. -/
theorem C10_ctx_invoke_reverse_order (first : σ → σ) (rest : List (σ → σ)) :
    nodeFuncs (ctx_invoke first rest) =
      ((first :: rest).map ctx_task_func_impl.mk).reverse ∧
    (nodeFuncs (ctx_invoke first rest)).length = (first :: rest).length ∧
    (nodeFuncs (ctx_invoke first rest)).getLast? = some ⟨first⟩ ∧
    (∀ g : σ → σ, run_task ⟨g⟩ = g) := by
  have hmain : nodeFuncs (ctx_invoke first rest) =
      ((first :: rest).map ctx_task_func_impl.mk).reverse := by
    rw [ctx_invoke, nodeFuncs_ctx_invoke_aux rest (.node ⟨first⟩ .null)]
    simp [nodeFuncs]
  refine ⟨hmain, ?_, ?_, fun g => rfl⟩
  · rw [hmain]
    simp
  · rw [hmain]
    rw [List.map_cons, List.reverse_cons, List.getLast?_concat]

theorem C10_witness :
    nodeFuncs (ctx_invoke (fun u => u + 1) [fun u => u * 2, fun u => u + 3]) =
      (((fun u => u + 1) :: [fun u => u * 2, fun (u : Nat) => u + 3]).map
        ctx_task_func_impl.mk).reverse ∧
    (nodeFuncs (ctx_invoke (fun u => u + 1)
        [fun u => u * 2, fun (u : Nat) => u + 3])).length =
      ((fun u => u + 1) :: [fun u => u * 2, fun (u : Nat) => u + 3]).length ∧
    (nodeFuncs (ctx_invoke (fun u => u + 1)
        [fun u => u * 2, fun (u : Nat) => u + 3])).getLast? =
      some ⟨fun u => u + 1⟩ ∧
    (∀ g : Nat → Nat, run_task ⟨g⟩ = g) :=
  C10_ctx_invoke_reverse_order (fun u => u + 1) [fun u => u * 2, fun u => u + 3]

end Checkedthreads
